import Mathlib

/- A shallow embedding of the speedtest-rs measurement engine: the fixed
   size sequences and ratio truncation of speedtest-rs-core/src/model.rs,
   the URL construction of speedtest-rs-core/src/urls.rs, and the fetch
   failover loop, latency race, upload body stream and shared byte
   counter of src/speed_tester.rs.  Durations are modelled as natural
   numbers in an unspecified time unit; the f64 fields the embedded code
   never reads (lat, lon) are omitted, and the f32 upload ratio field is
   modelled as an integer, with the saturating `as usize` cast modelled
   by Int.toNat. -/

namespace Speedtest

/-- The two fixed size tables of model.rs (enum DefaultSequence). -/
inductive DefaultSequence where
  | upload
  | download

/-- DefaultSequence::sequence from model.rs. -/
def DefaultSequence.sequence : DefaultSequence → List Nat
  | DefaultSequence.upload =>
      [32 * 1024, 64 * 1024, 128 * 1024, 256 * 1024, 512 * 1024, 1024 * 1024, 7 * 1024 * 1024]
  | DefaultSequence.download =>
      [350, 500, 750, 1000, 1500, 2000, 2500, 3000, 3500, 4000]

/-- Config::upload_size_sequence from model.rs.  The argument r is the
    value of the upload ratio field (an f32 in the source, modelled as
    an integer); r.toNat models the saturating `as usize` cast, and
    seq.drop (rn - 1) models seq.drain(0..ratio - 1). -/
def upload_size_sequence (r : Int) : List Nat :=
  let seq := DefaultSequence.upload.sequence
  let rn := r.toNat
  if 0 < rn ∧ rn < seq.length then seq.drop (rn - 1) else seq

/-- Config::download_size_sequence from model.rs. -/
def download_size_sequence : List Nat := DefaultSequence.download.sequence

/-- SpeedTestHost from urls.rs. -/
inductive SpeedTestHost where
  | main
  | backup

/-- SpeedTestHost::all from urls.rs. -/
def SpeedTestHost.all : List SpeedTestHost := [SpeedTestHost.main, SpeedTestHost.backup]

/-- SpeedTestHost::host from urls.rs. -/
def SpeedTestHost.host : SpeedTestHost → String
  | SpeedTestHost.main => "www.speedtest.net"
  | SpeedTestHost.backup => "c.speedtest.net"

/-- SpeedTestPath from urls.rs. -/
inductive SpeedTestPath where
  | config
  | server
  | serverStatic

/-- SpeedTestPath::servers from urls.rs. -/
def SpeedTestPath.servers : List SpeedTestPath :=
  [SpeedTestPath.server, SpeedTestPath.serverStatic]

/-- SpeedTestPath::path from urls.rs. -/
def SpeedTestPath.path : SpeedTestPath → String
  | SpeedTestPath.config => "/speedtest-config.php"
  | SpeedTestPath.server => "/speedtest-servers.php"
  | SpeedTestPath.serverStatic => "/speedtest-servers-static.php"

/-- SpeedTestUrl from urls.rs: the use_tls and threads fields. -/
structure SpeedTestUrl where
  use_tls : Bool
  threads : Nat

/-- SpeedTestUrl::config_urls from urls.rs. -/
def config_urls (u : SpeedTestUrl) : List String :=
  SpeedTestHost.all.map (fun h =>
    if u.use_tls then "https://" ++ h.host ++ SpeedTestPath.config.path
    else "http://" ++ h.host ++ SpeedTestPath.config.path)

/-- SpeedTestUrl::server_urls from urls.rs. -/
def server_urls (u : SpeedTestUrl) : List String :=
  SpeedTestHost.all.flatMap (fun h =>
    SpeedTestPath.servers.map (fun p =>
      let scheme := if u.use_tls then "https" else "http"
      if 0 < u.threads then
        scheme ++ "://" ++ h.host ++ p.path ++ "?threads=" ++ toString u.threads
      else
        scheme ++ "://" ++ h.host ++ p.path))

/-- Outcome of one HTTP attempt inside SpeedTester::get_xml
    (speed_tester.rs): the send can fail (transport error or timeout),
    the status can be non-success, the body text can be unreadable, or
    the XML can fail to deserialize; otherwise a value of the expected
    record type is produced. -/
inductive AttemptOutcome (α : Type) where
  | sendError
  | badStatus
  | bodyError
  | parseError
  | ok (value : α)
deriving DecidableEq

/-- SpeedTester::get_xml from speed_tester.rs: none on any failure,
    the deserialized value otherwise (the anyhow error payload is
    dropped; the failover loop only logs it). -/
def get_xml {α : Type} : AttemptOutcome α → Option α
  | AttemptOutcome.ok v => some v
  | _ => none

/-- Result of a whole fetch_config or fetch_servers call. -/
inductive FetchResult (α : Type) where
  | ok (value : α)
  | failed (message : String)
deriving DecidableEq

/-- The failover loop shared by SpeedTester::fetch_config and
    SpeedTester::fetch_servers (speed_tester.rs): try each URL's
    attempt in order, return the first success, and fail with the
    given message once every attempt has failed. -/
def fetchLoop {α : Type} (message : String) (attempts : List (AttemptOutcome α)) :
    FetchResult α :=
  match attempts with
  | [] => FetchResult.failed message
  | a :: rest =>
    match get_xml a with
    | some v => FetchResult.ok v
    | none => fetchLoop message rest

/-- SpeedTester::fetch_config from speed_tester.rs. -/
def fetch_config {α : Type} (attempts : List (AttemptOutcome α)) : FetchResult α :=
  fetchLoop "all fetch config failed" attempts

/-- SpeedTester::fetch_servers from speed_tester.rs. -/
def fetch_servers {α : Type} (attempts : List (AttemptOutcome α)) : FetchResult α :=
  fetchLoop "all fetch servers failed" attempts

/-- Server from model.rs.  The two f64 fields (lat, lon) are omitted:
    the embedded code never reads them. -/
structure Server where
  url : String
  name : String
  country : String
  cc : String
  sponsor : String
  id : String
  host : String
deriving DecidableEq

/-- Outcome of the single HTTP GET of one probe round in
    SpeedTester::get_server_delay: whether the send succeeded, whether
    the response body was readable, and the elapsed wall-clock time at
    the point after the body was read. -/
structure HttpAttempt where
  sendOk : Bool
  bodyOk : Bool
  elapsed : Nat

/-- SpeedTester::get_server_delay from speed_tester.rs: the elapsed
    time of the request when it succeeds and its body is readable, and
    the penalty value timeout * 2 otherwise. -/
def get_server_delay (timeout : Nat) (a : HttpAttempt) : Nat :=
  if a.sendOk && a.bodyOk then a.elapsed else timeout * 2

/-- The probe loop body of one spawned task in
    SpeedTester::select_fastest_server (speed_tester.rs lines 150-166).
    The first Nat argument is the current round index i, the second the
    number of rounds still to run; attempts i is the outcome of round
    i's HTTP GET.  Returns (aggregate delay, total time spent
    sleeping): each round adds get_server_delay, and the task sleeps
    interval after every round except the last. -/
def probeLoop (timeout interval : Nat) (attempts : Nat → HttpAttempt) :
    Nat → Nat → Nat × Nat
  | _, 0 => (0, 0)
  | i, rem + 1 =>
    let d := get_server_delay timeout (attempts i)
    let slept := if 0 < rem then interval else 0
    let next := probeLoop timeout interval attempts (i + 1) rem
    (d + next.1, slept + next.2)

/-- One whole probe task: compare_times rounds starting at round 0. -/
def probe_task (timeout interval times : Nat) (attempts : Nat → HttpAttempt) :
    Nat × Nat :=
  probeLoop timeout interval attempts 0 times

/-- The two bail sites of SpeedTester::select_fastest_server:
    bail "no servers" and bail "all servers failed".  The second is
    dead code in the source: the drain loop that precedes it never
    terminates (see select_fastest_server below). -/
inductive SelectError where
  | noServers
  | allServersFailed
deriving DecidableEq

/-- Return value of SpeedTester::select_fastest_server, plus an
    explicit hangs outcome for the executions in which the future
    pends forever and no value is ever returned. -/
inductive SelectResult where
  | ok (server : Server)
  | error (e : SelectError)
  | hangs
deriving DecidableEq

/-- Result of SpeedTester::select_fastest_server together with the two
    visible effects the claims talk about: whether cancellation was
    broadcast on the watch channel, and how many results were taken
    off the completion channel. -/
structure RaceOutcome where
  result : SelectResult
  cancelBroadcast : Bool
  consumed : Nat
deriving DecidableEq

/-- SpeedTester::select_fastest_server (speed_tester.rs lines 134-188)
    as a function of the results in their arrival order on the
    completion channel: arrivals holds, per server, the (server,
    aggregate delay) pair its probe task sent, head first.  An empty
    server list fails with noServers before spawning anything; a first
    result under timeout * 2 wins immediately, broadcasting
    cancellation after consuming only that one result.  Otherwise the
    code enters the while-let drain of line 178.  That drain does take
    every remaining report off the channel, but it can never exit: an
    mpsc receiver yields None only once every sender is dropped and
    the buffer is empty, the spawned tasks only ever held clones of
    the sender (line 147), and the original tx of line 142 lives until
    the function returns, so the next rx.recv() pends forever after
    the last report.  The sort (line 182), the fallback minimum pick
    (lines 184-186) and the bail "all servers failed" (line 187) are
    unreachable dead code: the function hangs, modelled by the hangs
    outcome, with every report consumed and no cancellation
    broadcast. -/
def select_fastest_server (timeout _times : Nat) (arrivals : List (Server × Nat)) :
    RaceOutcome :=
  match arrivals with
  | [] => ⟨SelectResult.error SelectError.noServers, false, 0⟩
  | (server, delay) :: rest =>
    if delay < timeout * 2 then
      ⟨SelectResult.ok server, true, 1⟩
    else
      ⟨SelectResult.hangs, false, rest.length + 1⟩

/-- AtomicU64::fetch_add as used on the shared byte counters
    (speed_tester.rs lines 332 and 378): the only operation the code
    ever applies to a counter, adding a chunk length with the
    documented u64 semantics, which wrap around on overflow, i.e.
    modulo 2 ^ 64. -/
def fetch_add (counter chunkLen : Nat) : Nat := (counter + chunkLen) % 2 ^ 64

/-- The value of a shared byte counter after its first k atomic adds,
    where adds gives the chunk length of each update in the order the
    atomic operations took effect. -/
def counterTrace (adds : Nat → Nat) : Nat → Nat
  | 0 => 0
  | k + 1 => fetch_add (counterTrace adds k) (adds k)

/-- The static zero buffer of speed_tester.rs:
    UPLOAD_CHUNK: [u8; 1024 * 16] = [0; 1024 * 16]. -/
def UPLOAD_CHUNK : List Nat := List.replicate (1024 * 16) 0

/-- The chunk sizes emitted by the unfold inside
    SpeedTester::create_zero_stream: while bytes remain, emit
    min remaining UPLOAD_CHUNK.length and continue with the rest. -/
def zeroChunkSizes (remaining : Nat) : List Nat :=
  if _h : remaining = 0 then []
  else
    min remaining UPLOAD_CHUNK.length
      :: zeroChunkSizes (remaining - min remaining UPLOAD_CHUNK.length)
  termination_by remaining
  decreasing_by
    simp only [UPLOAD_CHUNK, List.length_replicate]
    omega

/-- SpeedTester::create_zero_stream, as the list of chunks the stream
    yields when fully consumed: each chunk is a prefix slice of the
    zero buffer UPLOAD_CHUNK of the computed chunk size. -/
def create_zero_stream (size : Nat) : List (List Nat) :=
  (zeroChunkSizes size).map (fun c => UPLOAD_CHUNK.take c)

/-- The inspect_ok hook of create_zero_stream applied over a full
    consumption of the stream, tracking the exact running total of the
    bytes handed to the counter: every produced chunk contributes its
    length, in production order.  The u64 register itself holds this
    total modulo 2 ^ 64 — folding the wrapping fetch_add over the same
    chunks gives exactly consumeStream reduced mod 2 ^ 64 (see
    consumeStream_mod_u64) — so the exact total is the stronger
    description of the increments. -/
def consumeStream (chunks : List (List Nat)) (uploaded : Nat) : Nat :=
  match chunks with
  | [] => uploaded
  | c :: rest => consumeStream rest (uploaded + c.length)

/-- The observable state of one spawned probe task of
    select_fastest_server before and around the first receive: still
    running with some rounds left, finished (its result was sent on
    the completion channel), or cancelled (it observed the shutdown
    signal inside its round loop and returned without sending). -/
inductive ProbeTask where
  | running (rounds : Nat)
  | finished
  | cancelled
deriving DecidableEq

/-- Global state of the selection race of select_fastest_server: the
    spawned probe tasks, the number of results currently buffered in
    the completion channel, the channel capacity (servers.len() in the
    source), the number of results the main task has received, and the
    value of the shutdown watch flag. -/
structure RaceState where
  tasks : List ProbeTask
  chan : Nat
  cap : Nat
  received : Nat
  shutdown : Bool
deriving DecidableEq

/-- Interleaving semantics of select_fastest_server up to and around
    the first receive (speed_tester.rs lines 142-174).  A running task
    may complete one probe round; a task that has observed the
    shutdown flag mid-loop exits without sending; a task whose rounds
    are done sends its result, which requires channel space; the main
    task receives a buffered result; and the main task may broadcast
    shutdown only after it has received at least one result (the send
    on shutdown_tx happens after rx.recv().await). -/
inductive Step : RaceState → RaceState → Prop where
  | round (pre post : List ProbeTask) (k chan cap recv : Nat) (sd : Bool) :
      Step ⟨pre ++ ProbeTask.running (k + 1) :: post, chan, cap, recv, sd⟩
           ⟨pre ++ ProbeTask.running k :: post, chan, cap, recv, sd⟩
  | cancel (pre post : List ProbeTask) (k chan cap recv : Nat) :
      Step ⟨pre ++ ProbeTask.running (k + 1) :: post, chan, cap, recv, true⟩
           ⟨pre ++ ProbeTask.cancelled :: post, chan, cap, recv, true⟩
  | send (pre post : List ProbeTask) (chan cap recv : Nat) (sd : Bool) :
      chan < cap →
      Step ⟨pre ++ ProbeTask.running 0 :: post, chan, cap, recv, sd⟩
           ⟨pre ++ ProbeTask.finished :: post, chan + 1, cap, recv, sd⟩
  | recv (tasks : List ProbeTask) (chan cap r : Nat) (sd : Bool) :
      Step ⟨tasks, chan + 1, cap, r, sd⟩
           ⟨tasks, chan, cap, r + 1, sd⟩
  | broadcast (tasks : List ProbeTask) (chan cap r : Nat) :
      1 ≤ r →
      Step ⟨tasks, chan, cap, r, false⟩
           ⟨tasks, chan, cap, r, true⟩

/-- Initial race state spawned by select_fastest_server for n servers:
    one task of times rounds per server, an empty completion channel
    of capacity n, nothing received, shutdown not signalled. -/
def initState (n times : Nat) : RaceState :=
  ⟨List.replicate n (ProbeTask.running times), 0, n, 0, false⟩

/-- Number of tasks that have sent their result. -/
def finCount : List ProbeTask → Nat
  | [] => 0
  | ProbeTask.finished :: ts => finCount ts + 1
  | _ :: ts => finCount ts

/-- Remaining work of one task, for the termination measure. -/
def taskWeight : ProbeTask → Nat
  | ProbeTask.running k => k + 1
  | _ => 0

/-- Remaining work of all tasks. -/
def weightSum (l : List ProbeTask) : Nat := (l.map taskWeight).sum

/-- Termination measure of the race: remaining task work, plus one
    while the main task has not yet received a first result. -/
def raceMeasure (s : RaceState) : Nat :=
  weightSum s.tasks + (if s.received = 0 then 1 else 0)

/-- Inductive invariant of the race: the capacity is the task count,
    buffered plus received results account exactly for the finished
    tasks, and before the first receive the shutdown flag is unset and
    no task has been cancelled. -/
def RaceInv (s : RaceState) : Prop :=
  s.cap = s.tasks.length ∧
  s.chan + s.received = finCount s.tasks ∧
  (s.received = 0 → s.shutdown = false) ∧
  (s.received = 0 → ∀ t ∈ s.tasks, t ≠ ProbeTask.cancelled)

/-- A concrete server record, used to instantiate theorems on concrete
    inputs. -/
def testServer : Server :=
  ⟨"http://kami.smartone.com:8080/speedtest/upload.php", "Hong Kong",
   "Hong Kong", "HK", "SmarTone", "35791", "kami.smartone.com:8080"⟩

/-- A concrete maximal execution of the race model with one server and
    zero probe rounds: the task sends, the main task receives, shutdown
    is broadcast, and the system is then quiescent. -/
def c10Run : Nat → RaceState
  | 0 => ⟨[ProbeTask.running 0], 0, 1, 0, false⟩
  | 1 => ⟨[ProbeTask.finished], 1, 1, 0, false⟩
  | 2 => ⟨[ProbeTask.finished], 0, 1, 1, false⟩
  | _ => ⟨[ProbeTask.finished], 0, 1, 1, true⟩

/-- Helper: upload_size_sequence written as a single case split on the
    integer ratio value. -/
theorem upload_size_sequence_eq (r : Int) :
    upload_size_sequence r =
      if 0 < r ∧ r < 7 then DefaultSequence.upload.sequence.drop (r.toNat - 1)
      else DefaultSequence.upload.sequence := by
  have hlen : (DefaultSequence.upload.sequence).length = 7 := by decide
  simp only [upload_size_sequence, hlen]
  by_cases hc : 0 < r ∧ r < 7
  · rw [if_pos (by omega), if_pos hc]
  · rw [if_neg (by omega), if_neg hc]

/-- Helper: the length of upload_size_sequence in the two cases. -/
theorem upload_size_sequence_length (r : Int) :
    (upload_size_sequence r).length =
      if 0 < r ∧ r < 7 then 7 - (r.toNat - 1) else 7 := by
  have hlen : (DefaultSequence.upload.sequence).length = 7 := by decide
  rw [upload_size_sequence_eq]
  by_cases hc : 0 < r ∧ r < 7
  · rw [if_pos hc, if_pos hc, List.length_drop, hlen]
  · rw [if_neg hc, if_neg hc, hlen]

/-- Helper: upload_size_sequence is never empty. -/
theorem upload_size_sequence_length_pos (r : Int) :
    0 < (upload_size_sequence r).length := by
  rw [upload_size_sequence_length]
  by_cases hc : 0 < r ∧ r < 7
  · rw [if_pos hc]; omega
  · rw [if_neg hc]; omega

/-- Claim C4: for every ratio value, if ratio is at most 0 or at least
    7 then upload_size_sequence returns the full 7-element sequence
    unchanged, and if 0 < ratio < 7 it returns the sequence with the
    first ratio - 1 elements removed, of length 7 - (ratio - 1). -/
theorem upload_size_sequence_ratio_cases (r : Int) :
    upload_size_sequence r =
      (if 0 < r ∧ r < 7 then DefaultSequence.upload.sequence.drop (r.toNat - 1)
       else DefaultSequence.upload.sequence) ∧
    (upload_size_sequence r).length =
      (if 0 < r ∧ r < 7 then 7 - (r.toNat - 1) else 7) :=
  ⟨upload_size_sequence_eq r, upload_size_sequence_length r⟩

/-- Claim C5: both size sequences are non-empty for every ratio, so
    the per-task lookup seq[i mod len(seq)] used by the download and
    upload engines is in bounds for every task index i. -/
theorem size_sequence_lookups_in_bounds (r : Int) (i : Nat) :
    upload_size_sequence r ≠ [] ∧ download_size_sequence ≠ [] ∧
    i % (upload_size_sequence r).length < (upload_size_sequence r).length ∧
    i % download_size_sequence.length < download_size_sequence.length := by
  have hu : 0 < (upload_size_sequence r).length := upload_size_sequence_length_pos r
  have hd : 0 < download_size_sequence.length := by decide
  exact ⟨List.length_pos.mp hu, List.length_pos.mp hd,
    Nat.mod_lt _ hu, Nat.mod_lt _ hd⟩

/-- Claim C5 witness: a concrete in-bounds lookup. -/
theorem size_sequence_lookups_in_bounds_witness :
    11 % (upload_size_sequence 5).length < (upload_size_sequence 5).length :=
  (size_sequence_lookups_in_bounds 5 11).2.2.1

/-- Claim C2: when the first result off the completion channel has
    aggregate delay strictly below 2 * timeout, that server is returned
    immediately, cancellation is broadcast, and exactly one result is
    consumed, whatever the remaining servers would report. -/
theorem select_early_winner (timeout times : Nat) (server : Server) (delay : Nat)
    (rest : List (Server × Nat)) (h : delay < timeout * 2) :
    select_fastest_server timeout times ((server, delay) :: rest) =
      ⟨SelectResult.ok server, true, 1⟩ := by
  simp [select_fastest_server, h]

/-- Claim C2 witness: a 3-unit first delay against a 10-unit timeout
    wins immediately. -/
theorem select_early_winner_witness :
    select_fastest_server 10 3 [(testServer, 3), (testServer, 999)] =
      ⟨SelectResult.ok testServer, true, 1⟩ :=
  select_early_winner 10 3 testServer 3 [(testServer, 999)] (by decide)

/-- Claim C1 (code bug): when every server's aggregate probe delay is
    at or above the ceiling 2 * timeout * compare_times, every report
    is indeed consumed from the completion channel, but
    select_fastest_server then hangs instead of failing with
    AllServersFailed: the original completion-channel sender is never
    dropped, so the drain loop never observes a closed channel and the
    bail of speed_tester.rs line 187 is unreachable.  Evaluated at the
    failing input timeout 5, 3 rounds, two servers whose probe rounds
    all fail (aggregate delays 30 and 42, both at or above the
    ceiling 30). -/
theorem select_all_failed_hangs :
    (select_fastest_server 5 3 [(testServer, 30), (testServer, 42)]).result =
        SelectResult.hangs ∧
    (select_fastest_server 5 3 [(testServer, 30), (testServer, 42)]).consumed = 2 ∧
    (select_fastest_server 5 3 [(testServer, 30), (testServer, 42)]).result ≠
        SelectResult.error SelectError.allServersFailed := by
  decide

/-- Claim C9 counterexample: with the u64-wrapping fetch_add, a reader
    can observe the counter decrease across a wrap: after one add of
    2 ^ 63 the counter reads 2 ^ 63, after a second it wraps to 0, so
    the unconditional monotonicity the claim states fails although the
    observation points satisfy 1 ≤ 2. -/
theorem counter_monotone_counterexample :
    1 ≤ 2 ∧
    ¬ (counterTrace (fun _ => 2 ^ 63) 1 ≤ counterTrace (fun _ => 2 ^ 63) 2) := by
  decide

/-- Helper: prefix totals of the add sequence are monotone. -/
theorem range_map_sum_mono (adds : Nat → Nat) {i j : Nat} (h : i ≤ j) :
    ((List.range i).map adds).sum ≤ ((List.range j).map adds).sum := by
  induction j, h using Nat.le_induction with
  | base => exact Nat.le_refl _
  | succ m _ ih =>
    rw [List.range_succ, List.map_append, List.sum_append]
    exact Nat.le_trans ih (Nat.le_add_right _ _)

/-- Helper: while the running total stays below the u64 capacity, the
    wrapping counter holds the exact total of the adds so far. -/
theorem counterTrace_eq_sum (adds : Nat → Nat) (j : Nat)
    (htotal : ((List.range j).map adds).sum < 2 ^ 64) :
    ∀ k, k ≤ j → counterTrace adds k = ((List.range k).map adds).sum := by
  intro k
  induction k with
  | zero => intro _; simp [counterTrace]
  | succ m ih =>
    intro hm
    have hmj : m ≤ j := Nat.le_of_succ_le hm
    have hsum : ((List.range (m + 1)).map adds).sum =
        ((List.range m).map adds).sum + adds m := by
      rw [List.range_succ, List.map_append, List.sum_append]
      simp
    have hlt : ((List.range (m + 1)).map adds).sum < 2 ^ 64 :=
      Nat.lt_of_le_of_lt (range_map_sum_mono adds hm) htotal
    show (counterTrace adds m + adds m) % 2 ^ 64 = ((List.range (m + 1)).map adds).sum
    rw [ih hmj, ← hsum]
    exact Nat.mod_eq_of_lt hlt

/-- Claim C9 (amended): the shared byte counter only ever moves by the
    wrapping fetch_add of a chunk length, so as long as the total of
    the added chunk lengths through the later observation stays below
    the u64 capacity 2 ^ 64 — as it does for the byte counts of a
    bounded test phase — the counter is monotonically non-decreasing
    as observed at any two points of any interleaving of the
    updates. -/
theorem counter_monotone_bounded (adds : Nat → Nat) (i j : Nat) (h : i ≤ j)
    (htotal : ((List.range j).map adds).sum < 2 ^ 64) :
    counterTrace adds i ≤ counterTrace adds j := by
  rw [counterTrace_eq_sum adds j htotal i h,
    counterTrace_eq_sum adds j htotal j (Nat.le_refl j)]
  exact range_map_sum_mono adds h

/-- Claim C9 witness: a concrete monotone observation under the
    bound. -/
theorem counter_monotone_bounded_witness :
    counterTrace (fun k => k + 1) 1 ≤ counterTrace (fun k => k + 1) 3 :=
  counter_monotone_bounded (fun k => k + 1) 1 3 (by decide) (by decide)

/-- Helper: closed form of the probe loop, for any starting round
    index. -/
theorem probeLoop_eq (timeout interval : Nat) (attempts : Nat → HttpAttempt) :
    ∀ rem i : Nat,
      (probeLoop timeout interval attempts i rem).1 =
          ((List.range' i rem).map (fun j => get_server_delay timeout (attempts j))).sum ∧
      (probeLoop timeout interval attempts i rem).2 = (rem - 1) * interval := by
  intro rem
  induction rem with
  | zero => intro i; simp [probeLoop]
  | succ k ih =>
    intro i
    refine ⟨?_, ?_⟩
    · simp [probeLoop, List.range'_succ, (ih (i + 1)).1]
    · have h2 := (ih (i + 1)).2
      simp only [probeLoop, h2]
      cases k with
      | zero => simp
      | succ m => simp [Nat.succ_sub_one, Nat.succ_mul, Nat.add_comm]

/-- Claim C3: a probe task's aggregate delay is the sum (not average)
    of the per-round delays over the compare_times rounds, it sleeps
    compare_interval between rounds except after the last (total
    (times - 1) * interval), and each round's delay is the elapsed
    time of the single HTTP GET when the request succeeds with a
    readable body and exactly 2 * timeout otherwise. -/
theorem probe_task_spec (timeout interval times : Nat) (attempts : Nat → HttpAttempt) :
    (probe_task timeout interval times attempts).1 =
        ((List.range times).map (fun i => get_server_delay timeout (attempts i))).sum ∧
    (probe_task timeout interval times attempts).2 = (times - 1) * interval ∧
    ∀ a : HttpAttempt,
      get_server_delay timeout a =
        (if a.sendOk && a.bodyOk then a.elapsed else timeout * 2) := by
  refine ⟨?_, ?_, fun a => rfl⟩
  · rw [probe_task, List.range_eq_range']
    exact (probeLoop_eq timeout interval attempts times 0).1
  · exact (probeLoop_eq timeout interval attempts times 0).2

/-- Helper: the failover loop returns the first successful attempt. -/
theorem fetchLoop_ok_of_first_success {α : Type} (message : String)
    (pre post : List (AttemptOutcome α)) (v : α)
    (hpre : ∀ a ∈ pre, get_xml a = none) :
    fetchLoop message (pre ++ AttemptOutcome.ok v :: post) = FetchResult.ok v := by
  induction pre with
  | nil => simp [fetchLoop, get_xml]
  | cons a rest ih =>
    have ha : get_xml a = none := hpre a (List.mem_cons_self _ _)
    rw [List.cons_append]
    rw [show fetchLoop message (a :: (rest ++ AttemptOutcome.ok v :: post)) =
        (match get_xml a with
         | some w => FetchResult.ok w
         | none => fetchLoop message (rest ++ AttemptOutcome.ok v :: post)) from rfl]
    rw [ha]
    exact ih (fun b hb => hpre b (List.mem_cons_of_mem _ hb))

/-- Helper: the failover loop fails (with its message) exactly when
    every attempt fails. -/
theorem fetchLoop_failed_iff {α : Type} (message : String)
    (attempts : List (AttemptOutcome α)) :
    fetchLoop message attempts = FetchResult.failed message ↔
      ∀ a ∈ attempts, get_xml a = none := by
  induction attempts with
  | nil => simp [fetchLoop]
  | cons a rest ih =>
    cases hx : get_xml a with
    | some v =>
      simp only [fetchLoop, hx]
      constructor
      · intro h; exact absurd h (by simp)
      · intro h
        have := h a (List.mem_cons_self _ _)
        rw [hx] at this
        exact absurd this (by simp)
    | none =>
      simp only [fetchLoop, hx]
      rw [ih]
      constructor
      · intro h b hb
        rcases List.mem_cons.mp hb with rfl | hb'
        · exact hx
        · exact h b hb'
      · intro h b hb
        exact h b (List.mem_cons_of_mem _ hb)

/-- Claim C6: fetch_config and fetch_servers try the candidate URLs in
    order and return the first attempt that yields a success status
    and deserializes; any failed attempt just moves on to the next
    URL; and they return the error naming their resource exactly when
    every attempt fails. -/
theorem fetch_first_success_and_failed_iff {α : Type}
    (attempts : List (AttemptOutcome α)) :
    (∀ (pre : List (AttemptOutcome α)) (v : α) (post : List (AttemptOutcome α)),
        attempts = pre ++ AttemptOutcome.ok v :: post →
        (∀ a ∈ pre, get_xml a = none) →
        fetch_config attempts = FetchResult.ok v ∧
        fetch_servers attempts = FetchResult.ok v) ∧
    (fetch_config attempts = FetchResult.failed "all fetch config failed" ↔
        ∀ a ∈ attempts, get_xml a = none) ∧
    (fetch_servers attempts = FetchResult.failed "all fetch servers failed" ↔
        ∀ a ∈ attempts, get_xml a = none) := by
  refine ⟨?_, ?_, ?_⟩
  · intro pre v post heq hpre
    subst heq
    exact ⟨fetchLoop_ok_of_first_success _ pre post v hpre,
      fetchLoop_ok_of_first_success _ pre post v hpre⟩
  · exact fetchLoop_failed_iff _ attempts
  · exact fetchLoop_failed_iff _ attempts

/-- Claim C6 witness: a bad status followed by a success yields the
    success; a single transport error yields the resource-naming
    failure. -/
theorem fetch_first_success_and_failed_iff_witness :
    fetch_config [AttemptOutcome.badStatus, AttemptOutcome.ok 7] = FetchResult.ok 7 ∧
    fetch_servers ([AttemptOutcome.sendError] : List (AttemptOutcome Nat)) =
        FetchResult.failed "all fetch servers failed" := by
  constructor
  · exact ((fetch_first_success_and_failed_iff
      [AttemptOutcome.badStatus, AttemptOutcome.ok 7]).1
      [AttemptOutcome.badStatus] 7 [] rfl (by decide)).1
  · exact (fetch_first_success_and_failed_iff
      ([AttemptOutcome.sendError] : List (AttemptOutcome Nat))).2.2.mpr (by decide)

/-- Helper: the zero-stream chunk sizes are positive and bounded by
    the buffer length. -/
theorem zeroChunkSizes_bounds (size : Nat) :
    ∀ c ∈ zeroChunkSizes size, 0 < c ∧ c ≤ UPLOAD_CHUNK.length := by
  have hlen : UPLOAD_CHUNK.length = 16384 := by
    rw [UPLOAD_CHUNK, List.length_replicate]
  induction size using Nat.strong_induction_on with
  | _ size ih =>
    rw [zeroChunkSizes]
    split
    · simp
    · rename_i hs
      intro c hc
      rcases List.mem_cons.mp hc with rfl | hmem
      · exact ⟨by omega, Nat.min_le_right _ _⟩
      · exact ih (size - min size UPLOAD_CHUNK.length) (by omega) c hmem

/-- Helper: the zero-stream chunk sizes sum to the requested size. -/
theorem zeroChunkSizes_sum (size : Nat) : (zeroChunkSizes size).sum = size := by
  have hlen : UPLOAD_CHUNK.length = 16384 := by
    rw [UPLOAD_CHUNK, List.length_replicate]
  induction size using Nat.strong_induction_on with
  | _ size ih =>
    rw [zeroChunkSizes]
    split
    · rename_i hz; simp [hz]
    · rename_i hs
      have hrec := ih (size - min size UPLOAD_CHUNK.length) (by omega)
      simp only [List.sum_cons, hrec]
      omega

/-- Helper: the chunk lengths of the stream are the computed chunk
    sizes (each slice of the zero buffer has exactly its chunk size,
    because chunk sizes never exceed the buffer length). -/
theorem create_zero_stream_lengths (size : Nat) :
    (create_zero_stream size).map List.length = zeroChunkSizes size := by
  rw [create_zero_stream, List.map_map]
  have h : ∀ c ∈ zeroChunkSizes size,
      (List.length ∘ fun c => UPLOAD_CHUNK.take c) c = id c := by
    intro c hc
    have := (zeroChunkSizes_bounds size c hc).2
    simp [List.length_take]
    omega
  rw [List.map_congr_left h, List.map_id]

/-- Helper: consuming the stream adds the total chunk length to the
    counter. -/
theorem consumeStream_eq (chunks : List (List Nat)) :
    ∀ u : Nat, consumeStream chunks u = u + (chunks.map List.length).sum := by
  induction chunks with
  | nil => intro u; simp [consumeStream]
  | cons c rest ih =>
    intro u
    simp only [consumeStream, ih, List.map_cons, List.sum_cons]
    omega

/-- Helper: the u64 byte-counter register after consuming the stream
    holds the exact total modulo 2 ^ 64: folding the wrapping
    fetch_add over the chunks agrees with consumeStream reduced
    mod 2 ^ 64. -/
theorem consumeStream_mod_u64 (chunks : List (List Nat)) :
    ∀ u : Nat,
      List.foldl (fun acc c => fetch_add acc c.length) (u % 2 ^ 64) chunks =
        consumeStream chunks u % 2 ^ 64 := by
  induction chunks with
  | nil => intro u; simp [consumeStream]
  | cons c rest ih =>
    intro u
    simp only [List.foldl_cons, consumeStream]
    have hstep : fetch_add (u % 2 ^ 64) c.length = (u + c.length) % 2 ^ 64 := by
      show (u % 2 ^ 64 + c.length) % 2 ^ 64 = (u + c.length) % 2 ^ 64
      exact Nat.mod_add_mod u (2 ^ 64) c.length
    rw [hstep]
    exact ih (u + c.length)

/-- Claim C7: for every requested size, create_zero_stream emits
    zero-filled chunks of length at most 16 KiB whose lengths sum to
    exactly the requested size, and fully consuming the stream
    increments the associated counter by exactly the requested size,
    each chunk length being added as the chunk is produced. -/
theorem create_zero_stream_spec (size c0 : Nat) :
    (∀ chunk ∈ create_zero_stream size,
        chunk.length ≤ 1024 * 16 ∧ ∀ b ∈ chunk, b = 0) ∧
    ((create_zero_stream size).map List.length).sum = size ∧
    consumeStream (create_zero_stream size) c0 = c0 + size := by
  have hlen : UPLOAD_CHUNK.length = 16384 := by
    rw [UPLOAD_CHUNK, List.length_replicate]
  refine ⟨?_, ?_, ?_⟩
  · intro chunk hchunk
    rw [create_zero_stream, List.mem_map] at hchunk
    obtain ⟨c, _, rfl⟩ := hchunk
    constructor
    · rw [List.length_take]
      omega
    · intro b hb
      have hmem : b ∈ UPLOAD_CHUNK := List.mem_of_mem_take hb
      rw [UPLOAD_CHUNK] at hmem
      exact List.eq_of_mem_replicate hmem
  · rw [create_zero_stream_lengths, zeroChunkSizes_sum]
  · rw [consumeStream_eq, create_zero_stream_lengths, zeroChunkSizes_sum]

/-- Claim C7 witness: the spec's concrete size 16*16*1025. -/
theorem create_zero_stream_spec_witness :
    ((create_zero_stream (16 * 16 * 1025)).map List.length).sum = 16 * 16 * 1025 ∧
    consumeStream (create_zero_stream (16 * 16 * 1025)) 0 = 0 + 16 * 16 * 1025 :=
  ⟨(create_zero_stream_spec (16 * 16 * 1025) 0).2.1,
   (create_zero_stream_spec (16 * 16 * 1025) 0).2.2⟩

/-- Claim C8: with a positive threads parameter, the server-directory
    fetch builds exactly 4 candidate URLs, in host-major order over
    www.speedtest.net then c.speedtest.net with the servers path before
    the static servers path, scheme https when TLS is enabled and http
    otherwise, and threads appended as a query parameter; the config
    fetch builds exactly 2 URLs, one per host in the same order. -/
theorem url_construction (tls : Bool) (n : Nat) (hn : 0 < n) :
    server_urls ⟨tls, n⟩ =
      [(if tls then "https" else "http") ++
          "://www.speedtest.net/speedtest-servers.php?threads=" ++ toString n,
       (if tls then "https" else "http") ++
          "://www.speedtest.net/speedtest-servers-static.php?threads=" ++ toString n,
       (if tls then "https" else "http") ++
          "://c.speedtest.net/speedtest-servers.php?threads=" ++ toString n,
       (if tls then "https" else "http") ++
          "://c.speedtest.net/speedtest-servers-static.php?threads=" ++ toString n] ∧
    config_urls ⟨tls, n⟩ =
      [(if tls then "https" else "http") ++ "://www.speedtest.net/speedtest-config.php",
       (if tls then "https" else "http") ++ "://c.speedtest.net/speedtest-config.php"] ∧
    (server_urls ⟨tls, n⟩).length = 4 ∧ (config_urls ⟨tls, n⟩).length = 2 := by
  have h1 : server_urls ⟨tls, n⟩ =
      [(if tls then "https" else "http") ++
          "://www.speedtest.net/speedtest-servers.php?threads=" ++ toString n,
       (if tls then "https" else "http") ++
          "://www.speedtest.net/speedtest-servers-static.php?threads=" ++ toString n,
       (if tls then "https" else "http") ++
          "://c.speedtest.net/speedtest-servers.php?threads=" ++ toString n,
       (if tls then "https" else "http") ++
          "://c.speedtest.net/speedtest-servers-static.php?threads=" ++ toString n] := by
    cases tls <;>
      (simp only [server_urls, SpeedTestHost.all, SpeedTestPath.servers,
        SpeedTestHost.host, SpeedTestPath.path, List.flatMap_cons, List.map_cons,
        List.map_nil, List.flatMap_nil, List.append_nil, List.cons_append,
        List.nil_append, hn, if_true, if_false, Bool.false_eq_true, if_pos]) <;> rfl
  have h2 : config_urls ⟨tls, n⟩ =
      [(if tls then "https" else "http") ++ "://www.speedtest.net/speedtest-config.php",
       (if tls then "https" else "http") ++ "://c.speedtest.net/speedtest-config.php"] := by
    cases tls <;>
      (simp only [config_urls, SpeedTestHost.all, SpeedTestHost.host, SpeedTestPath.path,
        List.map_cons, List.map_nil, if_true, if_false, Bool.false_eq_true]) <;> rfl
  refine ⟨h1, h2, ?_, ?_⟩
  · rw [h1]; rfl
  · rw [h2]; rfl

/-- Claim C8 witness: with TLS and threads = 5, the four server URLs
    and two config URLs of the source's own unit tests. -/
theorem url_construction_witness :
    server_urls ⟨true, 5⟩ =
      ["https://www.speedtest.net/speedtest-servers.php?threads=5",
       "https://www.speedtest.net/speedtest-servers-static.php?threads=5",
       "https://c.speedtest.net/speedtest-servers.php?threads=5",
       "https://c.speedtest.net/speedtest-servers-static.php?threads=5"] ∧
    config_urls ⟨true, 5⟩ =
      ["https://www.speedtest.net/speedtest-config.php",
       "https://c.speedtest.net/speedtest-config.php"] := by
  have h := url_construction true 5 (by decide)
  exact ⟨h.1.trans (by decide), h.2.1.trans (by decide)⟩

/-- Helper: finCount distributes over append. -/
theorem finCount_append (l₁ l₂ : List ProbeTask) :
    finCount (l₁ ++ l₂) = finCount l₁ + finCount l₂ := by
  induction l₁ with
  | nil => simp [finCount]
  | cons t ts ih => cases t <;> simp [finCount, ih] <;> omega

/-- Helper: at most every task has finished. -/
theorem finCount_le_length (l : List ProbeTask) : finCount l ≤ l.length := by
  induction l with
  | nil => simp [finCount]
  | cons t ts ih => cases t <;> simp [finCount] <;> omega

/-- Helper: when every task has finished, finCount is the length. -/
theorem finCount_eq_length (l : List ProbeTask)
    (h : ∀ t ∈ l, t = ProbeTask.finished) : finCount l = l.length := by
  induction l with
  | nil => simp [finCount]
  | cons t ts ih =>
    have ht : t = ProbeTask.finished := h t (List.mem_cons_self _ _)
    subst ht
    simp [finCount, ih (fun x hx => h x (List.mem_cons_of_mem _ hx))]

/-- Helper: weightSum distributes over append. -/
theorem weightSum_append (l₁ l₂ : List ProbeTask) :
    weightSum (l₁ ++ l₂) = weightSum l₁ + weightSum l₂ := by
  simp [weightSum, List.map_append, List.sum_append]

/-- Helper: weightSum of a cons cell. -/
theorem weightSum_cons (t : ProbeTask) (l : List ProbeTask) :
    weightSum (t :: l) = taskWeight t + weightSum l := by
  simp [weightSum]

/-- Helper: no spawned task has finished initially. -/
theorem finCount_replicate (n k : Nat) :
    finCount (List.replicate n (ProbeTask.running k)) = 0 := by
  induction n with
  | zero => simp [finCount]
  | succ m ih => simp [List.replicate_succ, finCount, ih]

/-- Helper: the initial race state satisfies the invariant. -/
theorem raceInv_init (n times : Nat) : RaceInv (initState n times) := by
  refine ⟨?_, ?_, ?_, ?_⟩
  · simp [initState, RaceInv]
  · simp [initState, finCount_replicate]
  · intro _; rfl
  · intro _ t ht
    simp only [initState] at ht
    have := List.eq_of_mem_replicate ht
    subst this
    simp

/-- Helper: every race step preserves the invariant. -/
theorem raceInv_step {s u : RaceState} (hinv : RaceInv s) (h : Step s u) :
    RaceInv u := by
  obtain ⟨hcap, hcnt, hsd, hnc⟩ := hinv
  cases h with
  | round pre post k chan cap recv sd =>
    have hcap' : cap = (pre ++ ProbeTask.running (k + 1) :: post).length := hcap
    have hcnt' : chan + recv = finCount (pre ++ ProbeTask.running (k + 1) :: post) := hcnt
    refine ⟨?_, ?_, hsd, ?_⟩
    · simp only [List.length_append, List.length_cons] at hcap' ⊢
      exact hcap'
    · simp only [finCount_append, finCount] at hcnt' ⊢
      exact hcnt'
    · intro h0 x hx
      have hx' : x ∈ pre ∨ x = ProbeTask.running k ∨ x ∈ post := by
        simpa [List.mem_append, List.mem_cons] using hx
      rcases hx' with hx' | rfl | hx'
      · exact hnc h0 x (by simp [hx'])
      · simp
      · exact hnc h0 x (by simp [hx'])
  | cancel pre post k chan cap recv =>
    have hrecv : recv ≠ 0 := fun h0 => by simpa using hsd h0
    have hcap' : cap = (pre ++ ProbeTask.running (k + 1) :: post).length := hcap
    have hcnt' : chan + recv = finCount (pre ++ ProbeTask.running (k + 1) :: post) := hcnt
    refine ⟨?_, ?_, fun h0 => absurd h0 hrecv, fun h0 => absurd h0 hrecv⟩
    · simp only [List.length_append, List.length_cons] at hcap' ⊢
      exact hcap'
    · simp only [finCount_append, finCount] at hcnt' ⊢
      exact hcnt'
  | send pre post chan cap recv sd hlt =>
    have hcap' : cap = (pre ++ ProbeTask.running 0 :: post).length := hcap
    have hcnt' : chan + recv = finCount (pre ++ ProbeTask.running 0 :: post) := hcnt
    refine ⟨?_, ?_, hsd, ?_⟩
    · simp only [List.length_append, List.length_cons] at hcap' ⊢
      exact hcap'
    · simp only [finCount_append, finCount] at hcnt' ⊢
      omega
    · intro h0 x hx
      have hx' : x ∈ pre ∨ x = ProbeTask.finished ∨ x ∈ post := by
        simpa [List.mem_append, List.mem_cons] using hx
      rcases hx' with hx' | rfl | hx'
      · exact hnc h0 x (by simp [hx'])
      · simp
      · exact hnc h0 x (by simp [hx'])
  | recv tasks chan cap r sd =>
    have hcnt' : chan + 1 + r = finCount tasks := hcnt
    refine ⟨hcap, ?_, ?_, ?_⟩
    · show chan + (r + 1) = finCount tasks
      omega
    · intro h0
      exact absurd (show r + 1 = 0 from h0) (by omega)
    · intro h0
      exact absurd (show r + 1 = 0 from h0) (by omega)
  | broadcast tasks chan cap r hr =>
    refine ⟨hcap, hcnt, ?_, ?_⟩
    · intro h0
      exact absurd (show r = 0 from h0) (by omega)
    · intro h0
      exact absurd (show r = 0 from h0) (by omega)

/-- Helper: no step changes the channel capacity. -/
theorem step_cap {s u : RaceState} (h : Step s u) : u.cap = s.cap := by
  cases h <;> rfl

/-- Helper: before the first receive, some step is always enabled. -/
theorem race_progress {s : RaceState} (hinv : RaceInv s) (hne : s.tasks ≠ [])
    (h0 : s.received = 0) : ∃ u, Step s u := by
  obtain ⟨tasks, chan, cap, recv, sd⟩ := s
  obtain ⟨hcap, hcnt, hsd, hnc⟩ := hinv
  have h0' : recv = 0 := h0
  subst h0'
  have hsd' : sd = false := hsd rfl
  subst hsd'
  have hcap' : cap = tasks.length := hcap
  have hcnt' : chan + 0 = finCount tasks := hcnt
  have hne' : tasks ≠ [] := hne
  by_cases hr : ∃ pre k post, tasks = pre ++ ProbeTask.running (k + 1) :: post
  · obtain ⟨pre, k, post, rfl⟩ := hr
    exact ⟨_, Step.round pre post k chan cap 0 false⟩
  · by_cases hz : ∃ pre post, tasks = pre ++ ProbeTask.running 0 :: post
    · obtain ⟨pre, post, rfl⟩ := hz
      have hfc : finCount (pre ++ ProbeTask.running 0 :: post) <
          (pre ++ ProbeTask.running 0 :: post).length := by
        have b1 := finCount_le_length pre
        have b2 := finCount_le_length post
        simp only [finCount_append, finCount, List.length_append, List.length_cons]
        omega
      exact ⟨_, Step.send pre post chan cap 0 false (by omega)⟩
    · have hall : ∀ x ∈ tasks, x = ProbeTask.finished := by
        intro x hx
        cases x with
        | finished => rfl
        | running k =>
          obtain ⟨p, q, hpq⟩ := List.append_of_mem hx
          cases k with
          | zero => exact absurd ⟨p, q, hpq⟩ hz
          | succ m => exact absurd ⟨p, m, q, hpq⟩ hr
        | cancelled => exact absurd rfl (hnc rfl _ hx)
      have hfin := finCount_eq_length tasks hall
      have hpos : 0 < tasks.length := List.length_pos.mpr hne'
      obtain ⟨c, rfl⟩ : ∃ c, chan = c + 1 := ⟨chan - 1, by omega⟩
      exact ⟨_, Step.recv tasks c cap 0 false⟩

/-- Helper: before the first receive, every step strictly decreases
    the termination measure. -/
theorem race_measure_decreases {s u : RaceState} (hinv : RaceInv s)
    (h0 : s.received = 0) (h : Step s u) : raceMeasure u < raceMeasure s := by
  cases h with
  | round pre post k chan cap recv sd =>
    have h0' : recv = 0 := h0
    simp [raceMeasure, weightSum_append, weightSum_cons, taskWeight, h0']
  | cancel pre post k chan cap recv =>
    have := hinv.2.2.1 h0
    simp at this
  | send pre post chan cap recv sd hlt =>
    have h0' : recv = 0 := h0
    simp [raceMeasure, weightSum_append, weightSum_cons, taskWeight, h0']
  | recv tasks chan cap r sd =>
    have h0' : r = 0 := h0
    subst h0'
    simp [raceMeasure]
  | broadcast tasks chan cap r hr =>
    have h0' : r = 0 := h0
    omega

/-- Claim C10: for every non-empty server list, the first blocking
    receive of select_fastest_server always yields a result, so its
    unwrap cannot panic: along any maximal execution of the race model
    (whose shutdown broadcast is only enabled after a first result has
    been received, and whose channel capacity is the server count),
    some state with a received result is reached; moreover before that
    point the shutdown flag is unset and no probe task has been
    cancelled, so every task runs its rounds to completion and sends
    its report. -/
theorem select_first_recv_succeeds (n times : Nat) (hn : 1 ≤ n)
    (rho : Nat → RaceState) (hinit : rho 0 = initState n times)
    (hrun : ∀ k, Step (rho k) (rho (k + 1)) ∨
        (rho (k + 1) = rho k ∧ ∀ u, ¬ Step (rho k) u)) :
    (∃ k, 1 ≤ (rho k).received) ∧
    (∀ k, (rho k).received = 0 →
        (rho k).shutdown = false ∧ ∀ x ∈ (rho k).tasks, x ≠ ProbeTask.cancelled) := by
  have hinv : ∀ k, RaceInv (rho k) := by
    intro k
    induction k with
    | zero => rw [hinit]; exact raceInv_init n times
    | succ m ih =>
      rcases hrun m with hstep | ⟨heq, _⟩
      · exact raceInv_step ih hstep
      · rw [heq]; exact ih
  refine ⟨?_, fun k h0 => ⟨(hinv k).2.2.1 h0, (hinv k).2.2.2 h0⟩⟩
  by_contra hcon
  push_neg at hcon
  have hz : ∀ k, (rho k).received = 0 := by
    intro k
    have := hcon k
    omega
  have hcap : ∀ k, (rho k).cap = n := by
    intro k
    induction k with
    | zero => rw [hinit]; rfl
    | succ m ih =>
      rcases hrun m with hstep | ⟨heq, _⟩
      · rw [step_cap hstep]; exact ih
      · rw [heq]; exact ih
  have hne : ∀ k, (rho k).tasks ≠ [] := by
    intro k hnil
    have h1 := (hinv k).1
    have h2 := hcap k
    rw [hnil] at h1
    simp at h1
    omega
  have hstepk : ∀ k, Step (rho k) (rho (k + 1)) := by
    intro k
    rcases hrun k with hstep | ⟨_, hdead⟩
    · exact hstep
    · obtain ⟨u, hu⟩ := race_progress (hinv k) (hne k) (hz k)
      exact absurd hu (hdead u)
  have hdec : ∀ k, raceMeasure (rho (k + 1)) < raceMeasure (rho k) :=
    fun k => race_measure_decreases (hinv k) (hz k) (hstepk k)
  have hbound : ∀ k, raceMeasure (rho k) + k ≤ raceMeasure (rho 0) := by
    intro k
    induction k with
    | zero => omega
    | succ m ih =>
      have := hdec m
      omega
  have := hbound (raceMeasure (rho 0) + 1)
  omega

/-- Helper: any enabled step needs a running task, a buffered result,
    or an unset shutdown flag. -/
theorem step_shape {s u : RaceState} (h : Step s u) :
    (∃ pre k post, s.tasks = pre ++ ProbeTask.running k :: post) ∨
    0 < s.chan ∨ s.shutdown = false := by
  cases h with
  | round pre post k chan cap recv sd => exact Or.inl ⟨pre, k + 1, post, rfl⟩
  | cancel pre post k chan cap recv => exact Or.inl ⟨pre, k + 1, post, rfl⟩
  | send pre post chan cap recv sd hlt => exact Or.inl ⟨pre, 0, post, rfl⟩
  | recv tasks chan cap r sd => exact Or.inr (Or.inl (Nat.succ_pos chan))
  | broadcast tasks chan cap r hr => exact Or.inr (Or.inr rfl)

/-- Helper: the final state of the witness run is quiescent. -/
theorem c10Run_stuck (u : RaceState) :
    ¬ Step ⟨[ProbeTask.finished], 0, 1, 1, true⟩ u := by
  intro h
  rcases step_shape h with ⟨pre, k, post, heq⟩ | hchan | hsd
  · rcases pre with _ | ⟨a, pre⟩
    · simp at heq
    · simp at heq
  · simp at hchan
  · simp at hsd

/-- Helper: the witness run takes legal steps and then stays
    quiescent. -/
theorem c10Run_steps : ∀ k, Step (c10Run k) (c10Run (k + 1)) ∨
    (c10Run (k + 1) = c10Run k ∧ ∀ u, ¬ Step (c10Run k) u) := by
  intro k
  match k with
  | 0 => exact Or.inl (Step.send [] [] 0 1 0 false (by decide))
  | 1 => exact Or.inl (Step.recv [ProbeTask.finished] 0 1 0 false)
  | 2 => exact Or.inl (Step.broadcast [ProbeTask.finished] 0 1 1 (by decide))
  | m + 3 => exact Or.inr ⟨rfl, c10Run_stuck⟩

/-- Claim C10 witness: a concrete maximal run with one server reaches
    a received first result. -/
theorem select_first_recv_succeeds_witness :
    (∃ k, 1 ≤ (c10Run k).received) ∧
    (∀ k, (c10Run k).received = 0 →
        (c10Run k).shutdown = false ∧ ∀ x ∈ (c10Run k).tasks, x ≠ ProbeTask.cancelled) :=
  select_first_recv_succeeds 1 0 (by decide) c10Run rfl c10Run_steps

end Speedtest
